import Mathlib

/-!
Verification of the segmented-download engine of `surge` (package `downloader`).

The Go source is shallowly embedded: the segment data model, the seeding of the
initial segments, the Splitter tick (sort by remaining, guard, split, append),
the worker byte-streaming loop, the probe/registration step and the progress
reporter become pure Lean functions over `Int` (Go `int64`; none of the
arithmetic below overflows 64 bits for the values involved, and every division
in the source is applied to nonnegative operands, where Go's truncated division
and Lean's integer division agree).  Locks and goroutines are erased from the
functional model; the lock *acquisition order* of the splitter tick is embedded
separately as an explicit event trace.
-/

namespace Surge

/-- Constant `InitialSegments = 8` from the source. -/
def InitialSegments : Nat := 8

/-- Constant `MaxWorkers = 128` from the source. -/
def MaxWorkers : Nat := 128

/-- Constant `MinSegmentSize = 2 * 1024 * 1024` (2 MiB) from the source. -/
def MinSegmentSize : Int := 2 * 1024 * 1024

/-- The `Segment` struct: `ID`, inclusive byte offsets `Start`/`End`, and the
byte counter `Downloaded`.  The mutex and the part-file handle are erased. -/
structure Segment where
  ID : Nat
  Start : Int
  End : Int
  Downloaded : Int
deriving DecidableEq, Repr

/-- `(s *Segment) Remaining()`: `s.End - s.Start + 1 - s.Downloaded`. -/
def Segment.Remaining (s : Segment) : Int :=
  s.End - s.Start + 1 - s.Downloaded

/-- `segmentSize := totalSize / InitialSegments`. -/
def segmentSize (totalSize : Int) : Int :=
  totalSize / (InitialSegments : Int)

/-- One iteration of the seeding loop: `start := i * segmentSize`,
`end := start + segmentSize - 1`, overridden to `totalSize` when
`i == InitialSegments - 1`.  `Downloaded` starts at Go's zero value. -/
def seedSegment (totalSize : Int) (i : Nat) : Segment :=
  let start : Int := (i : Int) * segmentSize totalSize
  let e : Int :=
    if i = InitialSegments - 1 then totalSize
    else start + segmentSize totalSize - 1
  { ID := i, Start := start, End := e, Downloaded := 0 }

/-- The seeded segment list (`segments` after the seeding loop). -/
def seedSegments (totalSize : Int) : List Segment :=
  (List.range InitialSegments).map (seedSegment totalSize)

/-- `sort.Slice(segments, func(i, j) { return segments[i].Remaining() > segments[j].Remaining() })`:
the list sorted by `Remaining` descending. -/
def sortByRemainingDesc (segs : List Segment) : List Segment :=
  segs.insertionSort (fun a b => b.Remaining ≤ a.Remaining)

/-- The split of one segment (source lines 224–238): the old segment's `End`
becomes `midpoint = Start + Downloaded + Remaining/2`; the new segment gets the
next `ID`, `Start = midpoint + 1`, the old `End`, and `Downloaded = 0`. -/
def splitSegment (s : Segment) (newID : Nat) : Segment × Segment :=
  let midpoint := s.Start + s.Downloaded + s.Remaining / 2
  ({ s with End := midpoint },
   { ID := newID, Start := midpoint + 1, End := s.End, Downloaded := 0 })

/-- One splitter tick after a successful probe (source lines 212–241): sort the
list by `Remaining` descending, take the head as the largest segment; if its
`Remaining` is below `MinSegmentSize`, do nothing further (the list stays
sorted); otherwise shrink it and append the new segment, which is also
enqueued (returned as the second component). -/
def splitTick (segs : List Segment) : List Segment × Option Segment :=
  match sortByRemainingDesc segs with
  | [] => ([], none)
  | largest :: rest =>
    if largest.Remaining < MinSegmentSize then (largest :: rest, none)
    else
      let p := splitSegment largest segs.length
      (p.1 :: rest ++ [p.2], some p.2)

/-- One body-read iteration of the owning worker as it affects segment `i`
(source lines 359–367): `Downloaded` grows by the chunk size `n`. -/
def writeStep (segs : List Segment) (i : Nat) (n : Nat) : List Segment :=
  match segs.get? i with
  | none => segs
  | some s => segs.set i { s with Downloaded := s.Downloaded + (n : Int) }

/-- A single step of the shared segment-list state: either a worker records a
written chunk, or the splitter performs a tick. -/
inductive Step : List Segment → List Segment → Prop
  | write (segs : List Segment) (i n : Nat) : Step segs (writeStep segs i n)
  | split (segs : List Segment) : Step segs (splitTick segs).1

/-- Segment-list states reachable from the seed by worker writes and splitter
ticks. -/
inductive Reachable (totalSize : Int) : List Segment → Prop
  | seed : Reachable totalSize (seedSegments totalSize)
  | step (segs segs' : List Segment) :
      Reachable totalSize segs → Step segs segs' → Reachable totalSize segs'

/-- `sort.Slice(segments, func(i, j) { return segments[i].ID < segments[j].ID })`:
the list sorted ascending by `ID` (the merge order of the finalizer). -/
def sortByID (segs : List Segment) : List Segment :=
  segs.insertionSort (fun a b => a.ID ≤ b.ID)

/-- `coversExactly lo segs hi` holds iff concatenating the ranges
`[Start, End]` of `segs` in list order yields exactly the interval `[lo, hi]`:
the first range starts at `lo`, each next range starts right after the
previous one ends (no gap, no overlap), and the last range ends at `hi`. -/
def coversExactly (lo : Int) : List Segment → Int → Bool
  | [], hi => lo == hi + 1
  | s :: rest, hi => lo == s.Start && coversExactly (s.End + 1) rest hi

/-- A worker that has an HTTP range response in flight for its segment:
`respRemaining` is how many body bytes of that response are still unread. -/
structure WorkerState where
  seg : Segment
  respRemaining : Int
deriving DecidableEq, Repr

/-- Issuing the range request `bytes=(Start+Downloaded)-(End)` (source line
339).  A 206 server honours it, so the body carries
`End - (Start + Downloaded) + 1` bytes, fixed at request time. -/
def issueRequest (s : Segment) : WorkerState :=
  { seg := s, respRemaining := s.End - (s.Start + s.Downloaded) + 1 }

/-- One read/write iteration of the worker loop (source lines 359–367): `n`
body bytes are read (at most what the in-flight response still holds) and
`Downloaded` grows by `n`.  No bound involving the segment's current `End` is
checked. -/
def readChunk (w : WorkerState) (n : Int) : WorkerState :=
  if 0 < n ∧ n ≤ w.respRemaining then
    { seg := { w.seg with Downloaded := w.seg.Downloaded + n },
      respRemaining := w.respRemaining - n }
  else w

/-- The splitter shrinking the worker's segment (source lines 218, 224–226):
when `Remaining ≥ MinSegmentSize`, `End` is set to
`Start + Downloaded + Remaining/2`.  The in-flight response is unaware. -/
def splitShrink (w : WorkerState) : WorkerState :=
  if MinSegmentSize ≤ w.seg.Remaining then
    { w with seg :=
        { w.seg with End := w.seg.Start + w.seg.Downloaded + w.seg.Remaining / 2 } }
  else w

/-- The claimed per-segment invariant `0 ≤ downloaded ≤ end - start + 1`. -/
def capInvariant (s : Segment) : Prop :=
  0 ≤ s.Downloaded ∧ s.Downloaded ≤ s.End - s.Start + 1

instance (s : Segment) : Decidable (capInvariant s) := by
  unfold capInvariant; infer_instance

/-- A concrete interleaving: a fresh 4 MiB segment `[0, 4194303]`; the worker
issues its range request (body: 4,194,304 bytes); the splitter then shrinks
`End` to the midpoint 2,097,152; the worker drains the rest of the response. -/
def overshootState : WorkerState :=
  readChunk
    (splitShrink (issueRequest { ID := 0, Start := 0, End := 4194303, Downloaded := 0 }))
    4194304

/-- The `Worker` struct; the HTTP client and wait group are erased. -/
structure Worker where
  ID : Nat
deriving DecidableEq, Repr

/-- The outcome of `newWorker` once the probe's HTTP request has succeeded
(source lines 77–92), on a response with status `status`: a non-206/200 status
returns `(false, nil)` leaving the pool unchanged; otherwise one `Worker` with
`ID = len(workers)` is appended and `(true, nil)` is returned.  The error is
modelled as `Option String` (`none` = Go `nil`). -/
def registerWorker (status : Nat) (workers : List Worker) :
    (Bool × Option String) × List Worker :=
  if status ≠ 206 ∧ status ≠ 200 then ((false, none), workers)
  else ((true, none), workers ++ [{ ID := workers.length }])

/-- Go's conversion `int64(x)` of a nonneg-or-neg rational: truncation toward
zero. -/
def truncToInt (q : ℚ) : Int :=
  if q < 0 then -⌊-q⌋ else ⌊q⌋

/-- The state of the `Downloader` that `printProgress` mutates: the rolling
window `bytesDownloadedPerSecond` (its mutex is erased). -/
structure Downloader where
  bytesDownloadedPerSecond : List Int
deriving DecidableEq, Repr

/-- The percentage computed and clamped by `printProgress` (source lines
414–417): `written / total * 100`, replaced by `100` when above `100`.
The `float64` arithmetic is modelled over `ℚ`; the clamp is
representation-independent. -/
def clampPct (written total : Int) : ℚ :=
  let pct : ℚ := (written : ℚ) / (total : ℚ) * 100
  if pct > 100 then 100 else pct

/-- The remaining-bytes value used for the ETA (source lines 405–408):
`total - written`, replaced by `0` when negative. -/
def remainingBytes (written total : Int) : Int :=
  let r := total - written
  if r < 0 then 0 else r

/-- `printProgress` as a state transformer (source lines 380–422): if the
elapsed time is exactly zero it returns at once; otherwise the instantaneous
speed sample is appended to the rolling window, which is trimmed to 30
entries, and a progress line is emitted (the returned `Bool`). -/
def printProgress (d : Downloader) (written : Int) (elapsed : ℚ) :
    Downloader × Bool :=
  if elapsed = 0 then (d, false)
  else
    let speed : ℚ := (written : ℚ) / 1024 / elapsed
    let window := d.bytesDownloadedPerSecond ++ [truncToInt speed]
    let window' := if window.length > 30 then window.drop 1 else window
    ({ bytesDownloadedPerSecond := window' }, true)

/-- The three kinds of mutex in the engine: the SegmentStore lock
(`segmentsMu`), the WorkerPool lock (`workersMu`), and the per-segment locks
(`Segment.mu`, tagged by segment id). -/
inductive LockID where
  | store
  | pool
  | segment (id : Nat)
deriving DecidableEq, Repr

/-- A lock operation: an acquisition request or a release. -/
inductive LockEvent where
  | acquire (l : LockID)
  | release (l : LockID)
deriving DecidableEq, Repr

/-- All pairs `(held, requested)` such that at some point of the trace the
lock `held` was held by the thread while it requested to acquire the lock
`requested`.  The held-set is tracked as a multiset (a non-reentrant mutex is
still *held* while the same thread requests it again). -/
def acquireWhileHeldPairs : List LockID → List LockEvent → List (LockID × LockID)
  | _, [] => []
  | held, .acquire l :: rest =>
      held.map (fun h => (h, l)) ++ acquireWhileHeldPairs (l :: held) rest
  | held, .release l :: rest => acquireWhileHeldPairs (held.erase l) rest

/-- The sequence of lock operations of one splitter-tick iteration along the
successful-probe path, in program order (source lines 204–241, with the
`newWorker` call of line 205 inlined at its lines 81 and 87).  The sort of
line 213 invokes `Remaining()` — which locks and unlocks the segment — on the
segments it compares; one such comparison of segments 0 and 1 is retained.
Line 218 calls `largestSegment.Remaining()`; after line 223 has locked the
largest segment (id 0 here), line 224 calls its `Remaining()` again, which
requests the very lock the thread already holds.  Likewise line 81 requests
`workersMu`, which line 204 already acquired and no code path has released:
with Go's non-reentrant mutexes execution blocks forever at the first such
re-request; the trace records the operations as the code issues them. -/
def splitterTickLockTrace : List LockEvent :=
  [ .acquire .pool,          -- line 204: workersMu.Lock()
    .acquire .pool,          -- line 81 (in newWorker): workersMu.Lock()
    .release .pool,          -- line 87 (in newWorker): workersMu.Unlock()
    .acquire .store,         -- line 212: segmentsMu.Lock()
    .acquire (.segment 0),   -- line 214 (in sort.Slice): segments[i].Remaining()
    .release (.segment 0),
    .acquire (.segment 1),   -- line 214 (in sort.Slice): segments[j].Remaining()
    .release (.segment 1),
    .acquire (.segment 0),   -- line 218: largestSegment.Remaining()
    .release (.segment 0),
    .acquire (.segment 0),   -- line 223: largestSegment.mu.Lock()
    .acquire (.segment 0),   -- line 224: largestSegment.Remaining()
    .release (.segment 0),
    .release (.segment 0),   -- line 227: largestSegment.mu.Unlock()
    .release .store ]        -- line 241: segmentsMu.Unlock()

/-- Well-formedness of the id assignment: the ids in the list are distinct and
below the list length (the seeding assigns `0..7` and every split assigns
`len(segments)` to the appended segment). -/
def IDsOK (segs : List Segment) : Prop :=
  (segs.map Segment.ID).Nodup ∧ ∀ s ∈ segs, s.ID < segs.length

/-- Claim C3: with `total_size = 10,000,003` and `InitialSegments = 8`,
seeding yields `segmentSize = 1,250,000`; segments 0–6 cover
`[i*1,250,000, (i+1)*1,250,000 - 1]` (together `[0, 8,749,999]`), and the
eighth segment has `start = 8,750,000` and `end = 10,000,003 = total_size`. -/
theorem seeding_odd_remainder_exact :
    segmentSize 10000003 = 1250000 ∧
    seedSegments 10000003 =
      [⟨0, 0, 1249999, 0⟩, ⟨1, 1250000, 2499999, 0⟩, ⟨2, 2500000, 3749999, 0⟩,
       ⟨3, 3750000, 4999999, 0⟩, ⟨4, 5000000, 6249999, 0⟩, ⟨5, 6250000, 7499999, 0⟩,
       ⟨6, 7500000, 8749999, 0⟩, ⟨7, 8750000, 10000003, 0⟩] := by
  decide

/-- Claim C1: the seeding loop sets the last segment's `End` to `total_size`
itself, not `total_size - 1`.  Hence for a download of `total_size =
10,000,003` bytes that completes with no split (ranges are never changed by
worker writes), the final segment list sorted by `id` concatenates to the
interval `[0, total_size]` — one byte past `[0, total_size - 1]`, contrary to
the claimed invariant. -/
theorem seed_cover_off_by_one :
    coversExactly 0 (sortByID (seedSegments 10000003)) (10000003 - 1) = false ∧
    coversExactly 0 (sortByID (seedSegments 10000003)) 10000003 = true ∧
    (sortByID (seedSegments 10000003)).getLast?.map Segment.End = some 10000003 := by
  decide

/-- Claim C2: the invariant `0 ≤ downloaded ≤ end - start + 1` does not hold
at every point.  After the splitter shrinks `End` to 2,097,152 while the
worker's response (issued against `End = 4,194,303`) is still streaming, the
worker drains the body and `Downloaded` reaches 4,194,304, exceeding the
segment's capacity `end - start + 1 = 2,097,153`. -/
theorem overshoot_violates_capacity_invariant :
    overshootState.seg.Downloaded = 4194304 ∧
    overshootState.seg.End - overshootState.seg.Start + 1 = 2097153 ∧
    ¬ capInvariant overshootState.seg := by
  decide

/-- Claim C7: after a successful probe request, success holds iff the status
is 206 or 200; the returned error is always `nil`; on success exactly one
worker with `ID = len(workers)` is appended, and otherwise the pool is
unchanged. -/
theorem probe_register_spec (status : Nat) (workers : List Worker) :
    ((registerWorker status workers).1.1 = true ↔ (status = 206 ∨ status = 200)) ∧
    (registerWorker status workers).1.2 = none ∧
    (registerWorker status workers).2 =
      (if status = 206 ∨ status = 200 then workers ++ [{ ID := workers.length }]
       else workers) := by
  unfold registerWorker
  by_cases h : status = 206 ∨ status = 200
  · have h' : ¬ (status ≠ 206 ∧ status ≠ 200) := by tauto
    simp [h, h']
  · have h' : status ≠ 206 ∧ status ≠ 200 := by tauto
    simp [h, h']

/-- Claim C8: every emitted report is clamped — the percentage is at most 100
and the remaining-bytes value is at least 0, for every `written` and every
`total > 0`, including `written > total`. -/
theorem progress_clamped (written total : Int) (h : 0 < total) :
    clampPct written total ≤ 100 ∧ 0 ≤ remainingBytes written total := by
  constructor
  · simp only [clampPct]
    split
    · exact le_refl _
    · exact le_of_not_lt (by assumption)
  · simp only [remainingBytes]
    split
    · exact le_refl 0
    · omega

/-- Witness for `progress_clamped` at `written = 150 > total = 100`. -/
theorem progress_clamped_witness :
    clampPct 150 100 ≤ 100 ∧ 0 ≤ remainingBytes 150 100 :=
  progress_clamped 150 100 (by decide)

/-- Claim C10: when the elapsed time is exactly zero, `printProgress` returns
immediately — no sample is appended and nothing is emitted (so the speed
division never runs on a zero denominator); for any nonzero elapsed time the
rolling window holds at most 30 samples after the call. -/
theorem progress_zero_elapsed_and_window (d : Downloader) (written : Int)
    (elapsed : ℚ) (hw : d.bytesDownloadedPerSecond.length ≤ 30) :
    (elapsed = 0 → printProgress d written elapsed = (d, false)) ∧
    (elapsed ≠ 0 →
      (printProgress d written elapsed).1.bytesDownloadedPerSecond.length ≤ 30 ∧
      (printProgress d written elapsed).2 = true) := by
  constructor
  · intro h0
    unfold printProgress
    rw [if_pos h0]
  · intro hne
    unfold printProgress
    rw [if_neg hne]
    refine ⟨?_, rfl⟩
    simp only
    split
    · simp only [List.length_drop, List.length_append, List.length_cons,
        List.length_nil]
      omega
    · rename_i hle
      simp only [List.length_append, List.length_cons, List.length_nil] at hle ⊢
      omega

/-- Witness for `progress_zero_elapsed_and_window` on a window of three
samples and `elapsed = 1`. -/
theorem progress_zero_elapsed_and_window_witness :
    ((1 : ℚ) = 0 → printProgress ⟨[5, 6, 7]⟩ 100 1 = (⟨[5, 6, 7]⟩, false)) ∧
    ((1 : ℚ) ≠ 0 →
      (printProgress ⟨[5, 6, 7]⟩ 100 1).1.bytesDownloadedPerSecond.length ≤ 30 ∧
      (printProgress ⟨[5, 6, 7]⟩ 100 1).2 = true) :=
  progress_zero_elapsed_and_window ⟨[5, 6, 7]⟩ 100 1 (by decide)

/-- Claim C9: the splitter tick does not respect the claimed lock discipline.
In its trace the pool lock is held while the pool lock is requested again
(self-deadlock at line 81), the pool lock is held while the store lock is
requested (the reverse of the claimed store → pool order), the pool lock is
held while a segment lock is requested (claimed never to happen), and a
segment lock is held while the same segment lock is requested again
(self-deadlock at line 224). -/
theorem splitter_lock_order_violation :
    (LockID.pool, LockID.pool) ∈ acquireWhileHeldPairs [] splitterTickLockTrace ∧
    (LockID.pool, LockID.store) ∈ acquireWhileHeldPairs [] splitterTickLockTrace ∧
    (LockID.pool, LockID.segment 0) ∈ acquireWhileHeldPairs [] splitterTickLockTrace ∧
    (LockID.segment 0, LockID.segment 0) ∈ acquireWhileHeldPairs [] splitterTickLockTrace := by
  decide

/-- The sort performed at the head of a splitter tick is a permutation of the
segment list. -/
theorem sortByRemainingDesc_perm (segs : List Segment) :
    (sortByRemainingDesc segs).Perm segs :=
  List.perm_insertionSort _ segs

/-- The merge sort of the finalizer is a permutation of the segment list. -/
theorem sortByID_perm (segs : List Segment) :
    (sortByID segs).Perm segs :=
  List.perm_insertionSort _ segs

/-- Unfolding a splitter tick when the sort yields head `m` and tail `rest`. -/
theorem splitTick_eq_cons (segs : List Segment) (m : Segment) (rest : List Segment)
    (h : sortByRemainingDesc segs = m :: rest) :
    splitTick segs =
      if m.Remaining < MinSegmentSize then (m :: rest, none)
      else ((splitSegment m segs.length).1 :: rest ++ [(splitSegment m segs.length).2],
        some (splitSegment m segs.length).2) := by
  unfold splitTick
  rw [h]

/-- Unfolding a splitter tick on the empty list. -/
theorem splitTick_eq_nil (segs : List Segment) (h : sortByRemainingDesc segs = []) :
    splitTick segs = ([], none) := by
  unfold splitTick
  rw [h]

/-- Claim C4: a splitter tick whose selected largest segment `m` (the head of
the sort) has `Remaining ≥ MinSegmentSize` replaces `m` by the pair produced
by `splitSegment`: the old segment's new `End` is
`midpoint = Start + Downloaded + Remaining/2`, the new segment starts at
`midpoint + 1`, ends at the original `End`, carries `Downloaded = 0` and the
next free id, while the old segment's `Downloaded`, `Start` and `ID` are
unchanged; the new segment is also the one enqueued. -/
theorem split_pair_spec (segs : List Segment) (m : Segment) (rest : List Segment)
    (hsort : sortByRemainingDesc segs = m :: rest)
    (hge : MinSegmentSize ≤ m.Remaining) :
    splitTick segs =
      ((splitSegment m segs.length).1 :: rest ++ [(splitSegment m segs.length).2],
        some (splitSegment m segs.length).2) ∧
    (splitSegment m segs.length).1.End = m.Start + m.Downloaded + m.Remaining / 2 ∧
    (splitSegment m segs.length).2.Start = (splitSegment m segs.length).1.End + 1 ∧
    (splitSegment m segs.length).2.End = m.End ∧
    (splitSegment m segs.length).1.Downloaded = m.Downloaded ∧
    (splitSegment m segs.length).2.Downloaded = 0 ∧
    (splitSegment m segs.length).1.ID = m.ID ∧
    (splitSegment m segs.length).1.Start = m.Start ∧
    (splitSegment m segs.length).2.ID = segs.length := by
  refine ⟨?_, rfl, rfl, rfl, rfl, rfl, rfl, rfl, rfl⟩
  rw [splitTick_eq_cons segs m rest hsort, if_neg (not_lt.mpr hge)]

/-- Witness for `split_pair_spec`: the seed of a 32 MiB download; the largest
segment is the eighth (4,194,305 bytes remaining), split at midpoint
31,457,280 into `[29360128, 31457280]` and the new segment
`[31457281, 33554432]` with id 8. -/
theorem split_pair_spec_witness :
    splitTick (seedSegments 33554432) =
      ((splitSegment ⟨7, 29360128, 33554432, 0⟩ (seedSegments 33554432).length).1 ::
          [⟨0, 0, 4194303, 0⟩, ⟨1, 4194304, 8388607, 0⟩, ⟨2, 8388608, 12582911, 0⟩,
           ⟨3, 12582912, 16777215, 0⟩, ⟨4, 16777216, 20971519, 0⟩,
           ⟨5, 20971520, 25165823, 0⟩, ⟨6, 25165824, 29360127, 0⟩] ++
          [(splitSegment ⟨7, 29360128, 33554432, 0⟩ (seedSegments 33554432).length).2],
        some (splitSegment ⟨7, 29360128, 33554432, 0⟩ (seedSegments 33554432).length).2) ∧
    (splitSegment ⟨7, 29360128, 33554432, 0⟩ (seedSegments 33554432).length).1.End =
      (29360128 : Int) + 0 + (4194305 : Int) / 2 ∧
    (splitSegment ⟨7, 29360128, 33554432, 0⟩ (seedSegments 33554432).length).2.Start =
      (splitSegment ⟨7, 29360128, 33554432, 0⟩ (seedSegments 33554432).length).1.End + 1 ∧
    (splitSegment ⟨7, 29360128, 33554432, 0⟩ (seedSegments 33554432).length).2.End =
      (33554432 : Int) ∧
    (splitSegment ⟨7, 29360128, 33554432, 0⟩ (seedSegments 33554432).length).1.Downloaded =
      (0 : Int) ∧
    (splitSegment ⟨7, 29360128, 33554432, 0⟩ (seedSegments 33554432).length).2.Downloaded =
      (0 : Int) ∧
    (splitSegment ⟨7, 29360128, 33554432, 0⟩ (seedSegments 33554432).length).1.ID = 7 ∧
    (splitSegment ⟨7, 29360128, 33554432, 0⟩ (seedSegments 33554432).length).1.Start =
      (29360128 : Int) ∧
    (splitSegment ⟨7, 29360128, 33554432, 0⟩ (seedSegments 33554432).length).2.ID =
      (seedSegments 33554432).length :=
  split_pair_spec (seedSegments 33554432) ⟨7, 29360128, 33554432, 0⟩
    [⟨0, 0, 4194303, 0⟩, ⟨1, 4194304, 8388607, 0⟩, ⟨2, 8388608, 12582911, 0⟩,
     ⟨3, 12582912, 16777215, 0⟩, ⟨4, 16777216, 20971519, 0⟩,
     ⟨5, 20971520, 25165823, 0⟩, ⟨6, 25165824, 29360127, 0⟩]
    (by decide) (by decide)

/-- Claim C6: a splitter tick whose selected largest segment (the head of the
sort, hence of maximal `Remaining`) has `Remaining < MinSegmentSize` splits
nothing: nothing is enqueued, the resulting list is a permutation of the old
one (so every segment survives with all fields untouched — in particular no
`End` changes and no segment is created), and the list length is unchanged.
Only the order of the list changes (the tick has already sorted it in
place). -/
theorem no_split_below_min (segs : List Segment) (m : Segment) (rest : List Segment)
    (hsort : sortByRemainingDesc segs = m :: rest)
    (hlt : m.Remaining < MinSegmentSize) :
    splitTick segs = (m :: rest, none) ∧
    (splitTick segs).1.Perm segs ∧
    (splitTick segs).1.length = segs.length := by
  have h1 : splitTick segs = (m :: rest, none) := by
    rw [splitTick_eq_cons segs m rest hsort, if_pos hlt]
  have h2 : (splitTick segs).1.Perm segs := by
    rw [h1]
    rw [← hsort]
    exact sortByRemainingDesc_perm segs
  exact ⟨h1, h2, h2.length_eq⟩

/-- Witness for `no_split_below_min`: the seed of an 800-byte download; the
largest remaining is 101 bytes (< 2 MiB), so the tick only reorders. -/
theorem no_split_below_min_witness :
    splitTick (seedSegments 800) =
      (⟨7, 700, 800, 0⟩ ::
        [⟨0, 0, 99, 0⟩, ⟨1, 100, 199, 0⟩, ⟨2, 200, 299, 0⟩, ⟨3, 300, 399, 0⟩,
         ⟨4, 400, 499, 0⟩, ⟨5, 500, 599, 0⟩, ⟨6, 600, 699, 0⟩], none) ∧
    (splitTick (seedSegments 800)).1.Perm (seedSegments 800) ∧
    (splitTick (seedSegments 800)).1.length = (seedSegments 800).length :=
  no_split_below_min (seedSegments 800) ⟨7, 700, 800, 0⟩
    [⟨0, 0, 99, 0⟩, ⟨1, 100, 199, 0⟩, ⟨2, 200, 299, 0⟩, ⟨3, 300, 399, 0⟩,
     ⟨4, 400, 499, 0⟩, ⟨5, 500, 599, 0⟩, ⟨6, 600, 699, 0⟩]
    (by decide) (by decide)

/-- Setting a list position to the element already stored there is the
identity. -/
theorem list_set_self {α : Type*} (l : List α) (i : Nat) (a : α)
    (h : l.get? i = some a) : l.set i a = l := by
  induction l generalizing i with
  | nil => rfl
  | cons x xs ih =>
    cases i with
    | zero => simp at h; simp [h]
    | succ j => simp only [List.set]; rw [ih j (by simpa using h)]

/-- A worker write leaves the sequence of segment ids unchanged. -/
theorem writeStep_map_ID (segs : List Segment) (i n : Nat) :
    (writeStep segs i n).map Segment.ID = segs.map Segment.ID := by
  unfold writeStep
  cases hget : segs.get? i with
  | none => rfl
  | some s =>
    rw [List.map_set]
    apply list_set_self
    rw [List.get?_map, hget]
    rfl

/-- A worker write leaves the list length unchanged. -/
theorem writeStep_length (segs : List Segment) (i n : Nat) :
    (writeStep segs i n).length = segs.length := by
  unfold writeStep
  cases hget : segs.get? i with
  | none => rfl
  | some s => exact List.length_set segs i _

/-- Every member of the list after a worker write is either an old member or
the updated copy (same fields, larger `Downloaded`) of the written segment. -/
theorem mem_writeStep_elim (segs : List Segment) (i n : Nat) (s' : Segment)
    (h : s' ∈ writeStep segs i n) :
    s' ∈ segs ∨
      ∃ s, segs.get? i = some s ∧
        s' = { s with Downloaded := s.Downloaded + (n : Int) } := by
  unfold writeStep at h
  cases hget : segs.get? i with
  | none => rw [hget] at h; exact Or.inl h
  | some s =>
    rw [hget] at h
    rcases List.mem_or_eq_of_mem_set h with h1 | h1
    · exact Or.inl h1
    · exact Or.inr ⟨s, rfl, h1⟩

/-- The seeded ids are `0..7` in order, whatever the total size. -/
theorem seed_map_ID (t : Int) : (seedSegments t).map Segment.ID = List.range 8 := rfl

/-- The seed has well-formed ids. -/
theorem seed_IDsOK (t : Int) : IDsOK (seedSegments t) := by
  constructor
  · rw [seed_map_ID]; exact List.nodup_range 8
  · intro s hs
    have hmem : s.ID ∈ (seedSegments t).map Segment.ID := List.mem_map_of_mem _ hs
    rw [seed_map_ID] at hmem
    have h8 : s.ID < 8 := List.mem_range.mp hmem
    have hlen : (seedSegments t).length = 8 := rfl
    omega

/-- Worker writes preserve id well-formedness. -/
theorem writeStep_IDsOK (segs : List Segment) (i n : Nat) (h : IDsOK segs) :
    IDsOK (writeStep segs i n) := by
  obtain ⟨hnd, hlt⟩ := h
  constructor
  · rw [writeStep_map_ID]; exact hnd
  · intro s' hs'
    rw [writeStep_length]
    rcases mem_writeStep_elim segs i n s' hs' with h1 | ⟨s, hget, rfl⟩
    · exact hlt s' h1
    · exact hlt s (List.get?_mem hget)

/-- Splitter ticks preserve id well-formedness: the split keeps the old ids
and appends the fresh id `len(segments)`. -/
theorem splitTick_IDsOK (segs : List Segment) (h : IDsOK segs) :
    IDsOK (splitTick segs).1 := by
  obtain ⟨hnd, hlt⟩ := h
  cases hsort : sortByRemainingDesc segs with
  | nil =>
    rw [splitTick_eq_nil segs hsort]
    exact ⟨List.nodup_nil, by intro s hs; simp at hs⟩
  | cons m rest =>
    have hperm : (m :: rest).Perm segs := hsort ▸ sortByRemainingDesc_perm segs
    have hmem : m ∈ segs := hperm.mem_iff.mp (List.mem_cons_self m rest)
    have hcons : (List.map Segment.ID (m :: rest)).Nodup :=
      (hperm.map Segment.ID).nodup_iff.mpr hnd
    rw [List.map_cons, List.nodup_cons] at hcons
    obtain ⟨hmnotin, hrestnd⟩ := hcons
    have hrest_lt : ∀ s ∈ rest, s.ID < segs.length := fun s hsr =>
      hlt s (hperm.mem_iff.mp (List.mem_cons_of_mem m hsr))
    have hlen : rest.length + 1 = segs.length := by
      have := hperm.length_eq; simpa using this
    by_cases hg : m.Remaining < MinSegmentSize
    · rw [splitTick_eq_cons segs m rest hsort, if_pos hg]
      constructor
      · exact (hperm.map Segment.ID).nodup_iff.mpr hnd
      · intro s hs
        rw [show (m :: rest).length = segs.length from hperm.length_eq]
        exact hlt s (hperm.mem_iff.mp hs)
    · rw [splitTick_eq_cons segs m rest hsort, if_neg hg]
      constructor
      · show (List.map Segment.ID
          (((splitSegment m segs.length).1 :: rest) ++ [(splitSegment m segs.length).2])).Nodup
        rw [List.map_append, List.map_cons, List.nodup_append, List.nodup_cons]
        refine ⟨⟨?_, hrestnd⟩, List.nodup_singleton _, ?_⟩
        · exact fun hin => hmnotin hin
        · intro a ha hb
          simp at hb
          have hb' : a = segs.length := hb
          have hmlt : m.ID < segs.length := hlt m hmem
          rcases List.mem_cons.mp ha with h1 | h1
          · have ha' : a = m.ID := h1
            omega
          · obtain ⟨s, hsr, hsid⟩ := List.mem_map.mp h1
            have := hrest_lt s hsr
            omega
      · intro s' hs'
        have hlength :
            ((splitSegment m segs.length).1 :: rest ++ [(splitSegment m segs.length).2]).length
              = segs.length + 1 := by
          simp [List.length_append]
          omega
        rw [hlength]
        rcases List.mem_cons.mp hs' with h1 | h1
        · have hs'id : s'.ID = m.ID := by rw [h1]; exact rfl
          have := hlt m hmem
          omega
        · rcases List.mem_append.mp h1 with h2 | h2
          · have := hrest_lt s' h2
            omega
          · simp at h2
            have hs'id : s'.ID = segs.length := by rw [h2]; exact rfl
            omega

/-- Every reachable segment-list state has well-formed ids. -/
theorem reachable_IDsOK (t : Int) (segs : List Segment) (h : Reachable t segs) :
    IDsOK segs := by
  induction h with
  | seed => exact seed_IDsOK t
  | step s1 s2 hr hstep ih =>
    cases hstep with
    | write i n => exact writeStep_IDsOK _ i n ih
    | split => exact splitTick_IDsOK _ ih

/-- Claim C5: across any step (worker write or splitter tick) from a reachable
state, a segment identified by its `id` keeps its `Start` and its `End` never
increases; ids themselves are never reassigned (the new segment of a split
carries a fresh id).  Hence over a segment's lifetime `start` and `id` are
immutable and `end` only shrinks. -/
theorem segment_identity_monotone (t : Int) (segs segs' : List Segment)
    (hreach : Reachable t segs) (hstep : Step segs segs') :
    ∀ s ∈ segs, ∀ s' ∈ segs', s.ID = s'.ID → s'.Start = s.Start ∧ s'.End ≤ s.End := by
  obtain ⟨hnd, hlt⟩ := reachable_IDsOK t segs hreach
  have hinj := List.inj_on_of_nodup_map hnd
  intro s hs s' hs' hid
  cases hstep with
  | write i n =>
    rcases mem_writeStep_elim segs i n s' hs' with h1 | ⟨x, hget, rfl⟩
    · have hsx : s = s' := hinj hs h1 hid
      cases hsx; exact ⟨rfl, le_refl _⟩
    · have hx : x ∈ segs := List.get?_mem hget
      have hsx : s = x := hinj hs hx hid
      cases hsx; exact ⟨rfl, le_refl _⟩
  | split =>
    cases hsort : sortByRemainingDesc segs with
    | nil =>
      rw [splitTick_eq_nil segs hsort] at hs'
      simp at hs'
    | cons m rest =>
      have hperm : (m :: rest).Perm segs := hsort ▸ sortByRemainingDesc_perm segs
      by_cases hg : m.Remaining < MinSegmentSize
      · rw [splitTick_eq_cons segs m rest hsort, if_pos hg] at hs'
        have hmem : s' ∈ segs := hperm.mem_iff.mp hs'
        have hsx : s = s' := hinj hs hmem hid
        cases hsx; exact ⟨rfl, le_refl _⟩
      · rw [splitTick_eq_cons segs m rest hsort, if_neg hg] at hs'
        have hge : MinSegmentSize ≤ m.Remaining := not_lt.mp hg
        rcases List.mem_cons.mp hs' with h1 | h1
        · have hm : m ∈ segs := hperm.mem_iff.mp (List.mem_cons_self m rest)
          have hsm : s = m := by
            apply hinj hs hm
            rw [hid, h1]
            exact rfl
          cases hsm
          cases h1
          constructor
          · rfl
          · show s.Start + s.Downloaded + s.Remaining / 2 ≤ s.End
            unfold Segment.Remaining at hge ⊢
            unfold MinSegmentSize at hge
            omega
        · rcases List.mem_append.mp h1 with h2 | h2
          · have hmem : s' ∈ segs := hperm.mem_iff.mp (List.mem_cons_of_mem m h2)
            have hsx : s = s' := hinj hs hmem hid
            cases hsx; exact ⟨rfl, le_refl _⟩
          · simp at h2
            have hid2 : s.ID = segs.length := by rw [hid, h2]; exact rfl
            have := hlt s hs
            omega

/-- Witness for `segment_identity_monotone`: a worker write of 5 bytes onto
the first seeded segment of a 10,000,003-byte download keeps its `Start` and
`End`. -/
theorem segment_identity_monotone_witness :
    (⟨0, 0, 1249999, 5⟩ : Segment).Start = (⟨0, 0, 1249999, 0⟩ : Segment).Start ∧
    (⟨0, 0, 1249999, 5⟩ : Segment).End ≤ (⟨0, 0, 1249999, 0⟩ : Segment).End :=
  segment_identity_monotone 10000003 (seedSegments 10000003)
    (writeStep (seedSegments 10000003) 0 5) Reachable.seed
    (Step.write (seedSegments 10000003) 0 5)
    ⟨0, 0, 1249999, 0⟩ (by decide) ⟨0, 0, 1249999, 5⟩ (by decide) (by decide)

end Surge

